import Mathlib

/-!
Verification of the workout scheduling and planning core
(`workout_calendar.py`, `workout_planner.py`).

Dates are modelled as `Int` day numbers (a Python `date` is an absolute
calendar day; `timedelta(days=1)` is `+ 1` and `(d2 - d1).days` is `d2 - d1`).
Python machine integers are unbounded, so `Int`/`Nat` model them exactly.
-/

namespace Workout

/-- Entry kind of a schedule day: the Python code uses the strings
"Hypertrophy", "Cardio", "Rest". -/
inductive Kind where
  | Hypertrophy
  | Cardio
  | Rest
deriving DecidableEq, Repr

/-- Weekly-pattern symbol: the Python code uses the strings "H", "C", "R". -/
inductive Sym where
  | H
  | C
  | R
deriving DecidableEq, Repr

/-- A schedule entry, the dict
`{date, kind: Hypertrophy/Cardio/Rest, label, done}` built by
`generate_schedule` (workout_calendar.py, lines 50-63). -/
structure Entry where
  date : Int
  kind : Kind
  label : String
  done : Bool
deriving DecidableEq, Repr

/-- Clamp of `hyper_per_week` (workout_calendar.py line 37):
`max(0, min(7, int(h)))`. -/
def clampH (h : Int) : Nat := (max 0 (min 7 h)).toNat

/-- Clamp of `cardio_per_week` (line 38): `max(0, min(7 - hyper, int(c)))`. -/
def clampC (h c : Int) : Nat := (max 0 (min (7 - (clampH h : Int)) c)).toNat

/-- The weekly pattern (workout_calendar.py lines 37-41):
`["H"]*hyper + ["C"]*cardio + ["R"]*rest` with `rest = 7 - hyper - cardio`. -/
def week_pattern (h c : Int) : List Sym :=
  List.replicate (clampH h) Sym.H ++ List.replicate (clampC h c) Sym.C ++
    List.replicate (7 - clampH h - clampC h c) Sym.R

/-- The body of the `for offset in range(num_days)` loop of
`generate_schedule` (lines 46-63), recursing on the days still to emit.
`offset` is the current loop index and `labelIdx` the running `label_idx`.
`pattern[offset % 7]` is total in Python because the pattern has length 7;
`getD` with default `R` models the same total access, and
`split_labels[label_idx % len(split_labels)]` is modelled by `getD _ ""`
(the Python code assumes a non-empty label list). -/
def genAux (labels : List String) (pattern : List Sym) (start : Int) :
    Nat → Nat → Nat → List Entry
  | _, 0, _ => []
  | offset, rem + 1, labelIdx =>
    let d : Int := start + offset
    match pattern.getD (offset % 7) Sym.R with
    | Sym.H =>
        { date := d, kind := Kind.Hypertrophy,
          label := labels.getD (labelIdx % labels.length) "", done := false } ::
          genAux labels pattern start (offset + 1) rem (labelIdx + 1)
    | Sym.C =>
        { date := d, kind := Kind.Cardio, label := "Cardio", done := false } ::
          genAux labels pattern start (offset + 1) rem labelIdx
    | Sym.R =>
        { date := d, kind := Kind.Rest, label := "Rest", done := false } ::
          genAux labels pattern start (offset + 1) rem labelIdx

/-- `generate_schedule(split_labels, hyper_per_week, cardio_per_week,
start_date, num_days)` (workout_calendar.py lines 31-65). -/
def generate_schedule (labels : List String) (h c : Int) (startDate : Int)
    (numDays : Nat) : List Entry :=
  genAux labels (week_pattern h c) startDate 0 numDays 0

/-- `extend_schedule_if_needed(split_labels, hyper, cardio, until_date)`
(workout_calendar.py lines 68-86), with the ambient Streamlit session state
made explicit: `plan` is `state.plan` (absent modelled as `[]`, matching the
`"plan" not in state or not state.plan` bootstrap test) and `today` is
`date.today()`. Returns the new value of `state.plan`.
`extra_days = (until_date - extra_start).days + 30` is a Python int fed to
`range(num_days)`; a non-positive value yields an empty range, which `Int.toNat`
models exactly. -/
def extend_schedule_if_needed (labels : List String) (h c : Int)
    (untilDate today : Int) (plan : List Entry) : List Entry :=
  let plan1 := if plan.isEmpty then generate_schedule labels h c today 60 else plan
  match plan1.getLast? with
  | none => plan1
  | some lastE =>
    if lastE.date < untilDate then
      plan1 ++ generate_schedule labels h c (lastE.date + 1)
        ((untilDate - (lastE.date + 1) + 30).toNat)
    else plan1

/-! Planner model (`workout_planner.py`). -/

/-- The intensity selectbox offers exactly "Light", "Moderate", "Max effort";
the planner code tests the first two strings and treats anything else as the
max-effort branch. -/
inductive Intensity where
  | Light
  | Moderate
  | Max
deriving DecidableEq, Repr

/-- A catalog row after loading: the planner core reads the columns
`Exercise`, `Muscle Group`, `Equipment Required`, `Link`. -/
structure Row where
  exercise : String
  muscleGroup : String
  equipment : String
  link : String
deriving DecidableEq, Repr

/-- An item of the built workout plan (workout_planner.py lines 132-142). -/
structure PlanExercise where
  name : String
  muscle : String
  equipment : String
  sets : Nat
  reps : String
  rest : String
  link : String
deriving DecidableEq, Repr

/-- Python `soreness.get(mg, 0)` on the soreness dict, modelled as first
match in an association list (a Python dict has unique keys). -/
def sorenessGet (s : List (String × Int)) (m : String) : Int :=
  match s with
  | [] => 0
  | (k, v) :: rest => if k = m then v else sorenessGet rest m

/-- Membership of `mg` in `very_sore = [m for m, s in soreness.items() if s >= 8]`
(workout_planner.py line 115). -/
def isVerySore (s : List (String × Int)) (m : String) : Bool :=
  s.any (fun p => p.1 == m && 8 ≤ p.2)

/-- `round(minutes / 8)` (workout_planner.py line 80). `minutes / 8` is exact
in binary floating point and Python `round` is round-half-to-even, computed
here on the exact quotient. -/
def pyRoundDiv8 (minutes : Nat) : Nat :=
  let q := minutes / 8
  let r := minutes % 8
  if r < 4 then q else if 4 < r then q + 1 else if q % 2 = 0 then q else q + 1

/-- `compute_num_exercises(minutes, intensity)` (workout_planner.py
lines 79-85). After the clamp `base ∈ [3, 10]`, and on that range the float
truncations agree with exact rational truncation: Python `int(base * 0.8)`
equals `4 * base / 5` and `int(base * 1.2)` equals `6 * base / 5` (checked
value by value against IEEE-754 double results, e.g. `int(6 * 0.8) = 4` from
`4.800000000000001` and `int(5 * 1.2) = 6` from exactly `6.0`). -/
def compute_num_exercises (minutes : Nat) (intensity : Intensity) : Nat :=
  let base := max 3 (min 10 (pyRoundDiv8 minutes))
  match intensity with
  | Intensity.Light => max 3 (4 * base / 5)
  | Intensity.Moderate => base
  | Intensity.Max => min 12 (6 * base / 5)

/-- `sets_reps_rest(intensity)` (workout_planner.py lines 101-106). -/
def sets_reps_rest (intensity : Intensity) : Nat × String × String :=
  match intensity with
  | Intensity.Light => (2, "12–15", "45–60 sec")
  | Intensity.Moderate => (3, "8–12", "60–90 sec")
  | Intensity.Max => (4, "6–10", "90–120 sec")

/-- The keyword table of `infer_muscles_from_title` (workout_planner.py
lines 50-63), in source order. -/
def muscleMapping : List (String × List String) :=
  [("push", ["Chest", "Triceps", "Shoulders"]),
   ("pull", ["Back", "Biceps"]),
   ("legs", ["Legs", "Quads", "Hamstrings", "Glutes"]),
   ("upper", ["Chest", "Shoulders", "Back", "Arms"]),
   ("lower", ["Legs", "Quads", "Hamstrings", "Glutes"]),
   ("arms", ["Biceps", "Triceps", "Forearms"]),
   ("chest", ["Chest"]),
   ("back", ["Back"]),
   ("shoulder", ["Shoulders"]),
   ("glute", ["Glutes"]),
   ("core", ["Abs", "Core"]),
   ("abs", ["Abs", "Core"])]

/-- Occurrence of `pat` as a contiguous segment of `s` (character lists). -/
def charListHas (s pat : List Char) : Bool :=
  match s with
  | [] => pat.isEmpty
  | _ :: rest => pat.isPrefixOf s || charListHas rest pat

/-- Python substring test `key in title`. -/
def strContains (s pat : String) : Bool := charListHas s.data pat.data

/-- Python `title.lower()`; the keyword keys are ASCII, for which
`Char.toLower` agrees with Python. -/
def strLower (s : String) : String := ⟨s.data.map Char.toLower⟩

/-- `infer_muscles_from_title(title, all_muscles)` (workout_planner.py
lines 47-73): lower-case the title, take the union (a Python set, here a
deduplicated list in table order) of the mapped muscles of every key the
title contains, keeping only known muscles; fall back to `all_muscles[:3]`
when nothing matched. -/
def infer_muscles_from_title (title : String) (allMuscles : List String) :
    List String :=
  let t := strLower title
  let found :=
    (muscleMapping.foldl
      (fun acc p =>
        if strContains t p.1 then acc ++ p.2.filter (· ∈ allMuscles) else acc)
      []).dedup
  if found.isEmpty then allMuscles.take 3 else found

/-- `score_exercise(row, targets, soreness, intensity)` (workout_planner.py
lines 88-98), with the draw of `random.uniform(-1, 1)` passed in explicitly
as `jitter`. Scores are exact rationals; `1.6` is `8/5`. The `intensity`
argument is accepted and unused, as in the source. -/
def score_exercise (row : Row) (targets : List String)
    (soreness : List (String × Int)) (_intensity : Intensity) (jitter : ℚ) : ℚ :=
  (if row.muscleGroup ∈ targets then (6 : ℚ) else 0)
    - (sorenessGet soreness row.muscleGroup : ℚ) * (8 / 5) + jitter

/-- Score every row of the filtered catalog in order
(`df.apply(..., axis=1)`, workout_planner.py lines 122-124); the i-th row
consumes the i-th jitter draw. -/
def scoreRows (targets : List String) (soreness : List (String × Int))
    (intensity : Intensity) (jitter : Nat → ℚ) : Nat → List Row → List (ℚ × Row)
  | _, [] => []
  | i, r :: rs =>
      (score_exercise r targets soreness intensity (jitter i), r) ::
        scoreRows targets soreness intensity jitter (i + 1) rs

/-- Insertion step of `sortBy`. -/
def insertBy {α : Type} (le : α → α → Bool) (x : α) : List α → List α
  | [] => [x]
  | y :: ys => if le x y then x :: y :: ys else y :: insertBy le x ys

/-- Insertion sort by a boolean comparison. -/
def sortBy {α : Type} (le : α → α → Bool) : List α → List α
  | [] => []
  | x :: xs => insertBy le x (sortBy le xs)

/-- `df.sort_values("score", ascending=False)` (workout_planner.py
line 125): a descending sort by score. pandas uses an unstable quicksort, so
tie order is unspecified; this insertion sort is one admissible ordering and
no verified property depends on tie order. -/
def sortDesc (l : List (ℚ × Row)) : List (ℚ × Row) :=
  sortBy (fun x y => y.1 ≤ x.1) l

/-- Lexicographic comparison of character lists by code point, as Python
compares strings. -/
def charListLe : List Char → List Char → Bool
  | [], _ => true
  | _ :: _, [] => false
  | a :: as, b :: bs =>
      if a.toNat < b.toNat then true
      else if b.toNat < a.toNat then false
      else charListLe as bs

/-- Python string comparison `a <= b`. -/
def strLeb (a b : String) : Bool := charListLe a.data b.data

/-- First-occurrence deduplication (`pandas.unique` keeps the first
occurrence), with an accumulator of values already seen. -/
def dedupFirst (seen : List String) : List String → List String
  | [] => []
  | x :: xs =>
      if x ∈ seen then dedupFirst seen xs
      else x :: dedupFirst (x :: seen) xs

/-- The sorted unique muscle groups, `sorted(df["Muscle Group"].unique())`
(workout_planner.py line 113): first-occurrence deduplication, then
lexicographic sort. -/
def uniqueMuscles (df : List Row) : List String :=
  sortBy strLeb (dedupFirst [] (df.map Row.muscleGroup))

/-- `build_workout_plan(df, title, minutes, wishes, soreness, intensity)`
(workout_planner.py lines 112-144), with the random jitter draws passed in
as `jitter`. The `wishes` argument is accepted and unused, as in the
source. -/
def build_workout_plan (df : List Row) (title : String) (minutes : Nat)
    (wishes : String) (soreness : List (String × Int)) (intensity : Intensity)
    (jitter : Nat → ℚ) : List PlanExercise :=
  let _ := wishes
  let targets := infer_muscles_from_title title (uniqueMuscles df)
  let df1 := df.filter (fun r => !isVerySore soreness r.muscleGroup)
  if df1.isEmpty then []
  else
    let scored := sortDesc (scoreRows targets soreness intensity jitter 0 df1)
    let num := min (compute_num_exercises minutes intensity) df1.length
    let srr := sets_reps_rest intensity
    (scored.take num).map (fun p =>
      { name := p.2.exercise, muscle := p.2.muscleGroup,
        equipment := p.2.equipment, sets := srr.1, reps := srr.2.1,
        rest := srr.2.2, link := p.2.link })

/-! Session state machine (`show_flashcards`, workout_planner.py
lines 150-199). -/

/-- A button press available on the flashcard screen. -/
inductive Press where
  | next
  | prev
deriving DecidableEq, Repr

/-- The session fields `state.current_card` and `state.finished`. -/
structure SessionState where
  current_card : Nat
  finished : Bool
deriving DecidableEq, Repr

/-- One button press in `show_flashcards`: the previous button exists only
when `idx > 0` (lines 182-185), so at index 0 a previous press changes
nothing; the next button does `current_card += 1` and sets `finished` when
`current_card >= total` (lines 195-198). -/
def stepSession (total : Nat) (s : SessionState) (p : Press) : SessionState :=
  match p with
  | Press.prev =>
      if 0 < s.current_card then
        { s with current_card := s.current_card - 1 }
      else s
  | Press.next =>
      { current_card := s.current_card + 1,
        finished := s.finished || decide (total ≤ s.current_card + 1) }

/-- A session over a plan of `total` exercises, started at index 0 with
`finished = false` (workout_planner.py lines 282-283), after a sequence of
button presses. -/
def runSession (total : Nat) (ps : List Press) : SessionState :=
  ps.foldl (stepSession total) ⟨0, false⟩

/-! General lemmas about the schedule generator. -/

theorem genAux_succ_H {pat : List Sym} {off : Nat}
    (hsym : pat.getD (off % 7) Sym.R = Sym.H) (ls : List String) (st : Int)
    (n li : Nat) :
    genAux ls pat st off (n + 1) li =
      { date := st + off, kind := Kind.Hypertrophy,
        label := ls.getD (li % ls.length) "", done := false } ::
        genAux ls pat st (off + 1) n (li + 1) := by
  simp only [genAux]
  rw [hsym]

theorem genAux_succ_C {pat : List Sym} {off : Nat}
    (hsym : pat.getD (off % 7) Sym.R = Sym.C) (ls : List String) (st : Int)
    (n li : Nat) :
    genAux ls pat st off (n + 1) li =
      { date := st + off, kind := Kind.Cardio, label := "Cardio",
        done := false } :: genAux ls pat st (off + 1) n li := by
  simp only [genAux]
  rw [hsym]

theorem genAux_succ_R {pat : List Sym} {off : Nat}
    (hsym : pat.getD (off % 7) Sym.R = Sym.R) (ls : List String) (st : Int)
    (n li : Nat) :
    genAux ls pat st off (n + 1) li =
      { date := st + off, kind := Kind.Rest, label := "Rest",
        done := false } :: genAux ls pat st (off + 1) n li := by
  simp only [genAux]
  rw [hsym]

theorem genAux_length (ls : List String) (pat : List Sym) (st : Int) :
    ∀ rem off li, (genAux ls pat st off rem li).length = rem := by
  intro rem
  induction rem with
  | zero => intro off li; rfl
  | succ n ih =>
      intro off li
      cases hsym : pat.getD (off % 7) Sym.R
      · rw [genAux_succ_H hsym]; simp [ih]
      · rw [genAux_succ_C hsym]; simp [ih]
      · rw [genAux_succ_R hsym]; simp [ih]

theorem generate_schedule_length (ls : List String) (h c st : Int) (n : Nat) :
    (generate_schedule ls h c st n).length = n :=
  genAux_length ls (week_pattern h c) st n 0 0

theorem genAux_date_done (ls : List String) (pat : List Sym) (st : Int) :
    ∀ (rem off li i : Nat) (e : Entry), (genAux ls pat st off rem li)[i]? = some e →
      e.date = st + off + i ∧ e.done = false := by
  intro rem
  induction rem with
  | zero => intro off li i e he; simp [genAux] at he
  | succ n ih =>
      intro off li i e he
      have hstep :
          ∀ (e0 : Entry) (tl : List Entry), (e0 :: tl)[i]? = some e →
            e0.date = st + off ∧ e0.done = false →
            (∀ j : Nat, tl[j]? = some e → e.date = st + (off + 1) + j ∧ e.done = false) →
            e.date = st + off + i ∧ e.done = false := by
        intro e0 tl hcons h0 htl
        cases i with
        | zero =>
            simp only [List.getElem?_cons_zero, Option.some.injEq] at hcons
            subst hcons
            simpa using h0
        | succ j =>
            simp only [List.getElem?_cons_succ] at hcons
            have := htl j hcons
            refine ⟨?_, this.2⟩
            rw [this.1]
            push_cast
            ring
      cases hsym : pat.getD (off % 7) Sym.R
      · rw [genAux_succ_H hsym] at he
        exact hstep _ _ he ⟨rfl, rfl⟩ (fun j hj => ih (off + 1) (li + 1) j e hj)
      · rw [genAux_succ_C hsym] at he
        exact hstep _ _ he ⟨rfl, rfl⟩ (fun j hj => ih (off + 1) li j e hj)
      · rw [genAux_succ_R hsym] at he
        exact hstep _ _ he ⟨rfl, rfl⟩ (fun j hj => ih (off + 1) li j e hj)

theorem genAux_hyperLabel (ls : List String) (pat : List Sym) (st : Int) :
    ∀ (rem off li i : Nat) (e : Entry),
      ((genAux ls pat st off rem li).filter
        (fun x => x.kind == Kind.Hypertrophy))[i]? = some e →
      e.label = ls.getD ((li + i) % ls.length) "" := by
  intro rem
  induction rem with
  | zero => intro off li i e he; simp [genAux] at he
  | succ n ih =>
      intro off li i e he
      cases hsym : pat.getD (off % 7) Sym.R
      · rw [genAux_succ_H hsym] at he
        rw [List.filter_cons_of_pos rfl] at he
        cases i with
        | zero =>
            simp only [List.getElem?_cons_zero, Option.some.injEq] at he
            simp [← he]
        | succ j =>
            simp only [List.getElem?_cons_succ] at he
            have := ih (off + 1) (li + 1) j e he
            rw [this]
            have harith : li + 1 + j = li + (j + 1) := by omega
            rw [harith]
      · rw [genAux_succ_C hsym] at he
        rw [List.filter_cons_of_neg (by simp)] at he
        exact ih (off + 1) li i e he
      · rw [genAux_succ_R hsym] at he
        rw [List.filter_cons_of_neg (by simp)] at he
        exact ih (off + 1) li i e he

/-- C3: for every requested frequencies h and c (any integers), the weekly
pattern built by generate_schedule has length exactly 7, with
countH = clamp(h, 0, 7) hypertrophy slots, countC = clamp(c, 0, 7 - countH)
cardio slots, and countH + countC + countR = 7. -/
theorem weekly_pattern_counts (h c : Int) :
    (week_pattern h c).length = 7 ∧
    (week_pattern h c).count Sym.H = clampH h ∧
    (week_pattern h c).count Sym.C = clampC h c ∧
    (week_pattern h c).count Sym.H + (week_pattern h c).count Sym.C +
      (week_pattern h c).count Sym.R = 7 := by
  have h1 : clampH h ≤ 7 := by unfold clampH; omega
  have h2 : clampC h c ≤ 7 - clampH h := by unfold clampC; omega
  refine ⟨?_, ?_, ?_, ?_⟩ <;>
    simp [week_pattern, List.count_append, List.count_replicate] <;>
    omega

/-- C4: for every non-empty split-label list, frequencies, start date and
number of days, generate_schedule returns exactly numDays entries, the entry
at position i carries date startDate + i (so dates are strictly increasing
with no duplicate and no gap), and every entry is created with
done = false. -/
theorem generate_schedule_days (labels : List String) (h c : Int)
    (startDate : Int) (numDays : Nat) (_hne : labels ≠ []) :
    (generate_schedule labels h c startDate numDays).length = numDays ∧
    ∀ (i : Nat) (e : Entry),
      (generate_schedule labels h c startDate numDays)[i]? = some e →
      e.date = startDate + i ∧ e.done = false := by
  refine ⟨generate_schedule_length labels h c startDate numDays, ?_⟩
  intro i e he
  have := genAux_date_done labels (week_pattern h c) startDate numDays 0 0 i e he
  simpa using this

theorem ne_nil_isEmpty_false {α : Type} {l : List α} (hl : l ≠ []) :
    l.isEmpty = false := by
  cases l
  · exact absurd rfl hl
  · rfl

theorem generate_schedule_ne_nil (ls : List String) (h c st : Int) (n : Nat)
    (hn : 0 < n) : generate_schedule ls h c st n ≠ [] := by
  intro hcon
  have hlen := generate_schedule_length ls h c st n
  rw [hcon] at hlen
  simp at hlen
  omega

theorem generate_schedule_getLast (ls : List String) (h c st : Int) (n : Nat)
    (hn : 0 < n) :
    ∃ e : Entry, (generate_schedule ls h c st n).getLast? = some e ∧
      e.date = st + n - 1 := by
  have hlen := generate_schedule_length ls h c st n
  have hidx : n - 1 < (generate_schedule ls h c st n).length := by omega
  obtain ⟨e, he⟩ : ∃ e, (generate_schedule ls h c st n)[n - 1]? = some e := by
    rw [List.getElem?_eq_getElem hidx]
    exact ⟨_, rfl⟩
  refine ⟨e, ?_, ?_⟩
  · rw [List.getLast?_eq_getElem?, hlen]
    exact he
  · have hd := (genAux_date_done ls (week_pattern h c) st n 0 0 (n - 1) e he).1
    rw [hd]
    push_cast [Nat.cast_sub (by omega : 1 ≤ n)]
    ring

theorem extend_eq_of_lt (labels : List String) (h c untilD today : Int)
    (plan : List Entry) (lastE : Entry)
    (hlast : plan.getLast? = some lastE) (hlt : lastE.date < untilD) :
    extend_schedule_if_needed labels h c untilD today plan =
      plan ++ generate_schedule labels h c (lastE.date + 1)
        ((untilD - (lastE.date + 1)).toNat + 30) := by
  have hne : plan.isEmpty = false :=
    ne_nil_isEmpty_false (by intro hcon; rw [hcon] at hlast; simp at hlast)
  simp only [extend_schedule_if_needed, hne, Bool.false_eq_true, if_false,
    hlast, if_pos hlt]
  congr 1
  congr 1
  omega

theorem extend_eq_of_ge (labels : List String) (h c untilD today : Int)
    (plan : List Entry) (lastE : Entry)
    (hlast : plan.getLast? = some lastE) (hge : untilD ≤ lastE.date) :
    extend_schedule_if_needed labels h c untilD today plan = plan := by
  have hne : plan.isEmpty = false :=
    ne_nil_isEmpty_false (by intro hcon; rw [hcon] at hlast; simp at hlast)
  simp only [extend_schedule_if_needed, hne, Bool.false_eq_true, if_false, hlast]
  rw [if_neg (by omega)]

theorem extend_nil (labels : List String) (h c untilD today : Int) :
    extend_schedule_if_needed labels h c untilD today [] =
      extend_schedule_if_needed labels h c untilD today
        (generate_schedule labels h c today 60) := by
  have hne : (generate_schedule labels h c today 60).isEmpty = false :=
    ne_nil_isEmpty_false (generate_schedule_ne_nil labels h c today 60 (by omega))
  simp only [extend_schedule_if_needed, List.isEmpty_nil, if_true, hne,
    Bool.false_eq_true, if_false]

theorem extend_last_ge_of_ne_nil (labels : List String) (h c untilD today : Int)
    (plan : List Entry) (lastE : Entry) (hlast : plan.getLast? = some lastE) :
    ∃ e : Entry,
      (extend_schedule_if_needed labels h c untilD today plan).getLast? = some e ∧
      untilD ≤ e.date := by
  by_cases hlt : lastE.date < untilD
  · rw [extend_eq_of_lt labels h c untilD today plan lastE hlast hlt]
    have hdays : 0 < (untilD - (lastE.date + 1)).toNat + 30 := by omega
    obtain ⟨e, helast, hedate⟩ := generate_schedule_getLast labels h c
      (lastE.date + 1) ((untilD - (lastE.date + 1)).toNat + 30) hdays
    refine ⟨e, ?_, ?_⟩
    · rw [List.getLast?_append_of_ne_nil _
        (generate_schedule_ne_nil labels h c (lastE.date + 1) _ hdays)]
      exact helast
    · rw [hedate]
      omega
  · rw [extend_eq_of_ge labels h c untilD today plan lastE hlast (by omega)]
    exact ⟨lastE, hlast, by omega⟩

theorem extend_last_ge (labels : List String) (h c untilD today : Int)
    (plan : List Entry) :
    ∃ e : Entry,
      (extend_schedule_if_needed labels h c untilD today plan).getLast? = some e ∧
      untilD ≤ e.date := by
  cases hplan : plan with
  | nil =>
      rw [extend_nil]
      have hgen : generate_schedule labels h c today 60 ≠ [] :=
        generate_schedule_ne_nil labels h c today 60 (by omega)
      obtain ⟨lastE, hlast⟩ := Option.isSome_iff_exists.mp
        (List.getLast?_isSome.mpr hgen)
      exact extend_last_ge_of_ne_nil labels h c untilD today _ lastE hlast
  | cons a l =>
      have hne : a :: l ≠ [] := by simp
      obtain ⟨lastE, hlast⟩ := Option.isSome_iff_exists.mp
        (List.getLast?_isSome.mpr hne)
      exact extend_last_ge_of_ne_nil labels h c untilD today _ lastE hlast

/-- C5: if the existing plan's last date is before untilDate,
extend_schedule_if_needed appends a contiguous segment generated from the
day after the last entry, spanning (untilDate - newStart).days + 30 days, and
leaves every pre-existing entry unchanged: the result is exactly the old plan
followed by the new segment, so the first plan.length entries are the old
plan, byte for byte. -/
theorem extend_appends (labels : List String) (h c untilD today : Int)
    (plan : List Entry) (lastE : Entry)
    (hlast : plan.getLast? = some lastE) (hlt : lastE.date < untilD) :
    extend_schedule_if_needed labels h c untilD today plan =
      plan ++ generate_schedule labels h c (lastE.date + 1)
        ((untilD - (lastE.date + 1)).toNat + 30) ∧
    (extend_schedule_if_needed labels h c untilD today plan).take plan.length =
      plan ∧
    (extend_schedule_if_needed labels h c untilD today plan).length =
      plan.length + ((untilD - (lastE.date + 1)).toNat + 30) := by
  have heq := extend_eq_of_lt labels h c untilD today plan lastE hlast hlt
  refine ⟨heq, ?_, ?_⟩
  · rw [heq]
    exact List.take_left plan _
  · rw [heq, List.length_append, generate_schedule_length]

/-- Witness for C5 at a concrete input. -/
theorem extend_appends_witness :
    ((generate_schedule ["Push"] 1 0 0 2).getLast? =
      some { date := 1, kind := Kind.Rest, label := "Rest", done := false }) ∧
    ((1 : Int) < 5) ∧
    (extend_schedule_if_needed ["Push"] 1 0 5 0 (generate_schedule ["Push"] 1 0 0 2) =
      generate_schedule ["Push"] 1 0 0 2 ++ generate_schedule ["Push"] 1 0 2
        (((5 : Int) - 2).toNat + 30) ∧
    (extend_schedule_if_needed ["Push"] 1 0 5 0
        (generate_schedule ["Push"] 1 0 0 2)).take
      (generate_schedule ["Push"] 1 0 0 2).length =
      generate_schedule ["Push"] 1 0 0 2 ∧
    (extend_schedule_if_needed ["Push"] 1 0 5 0
        (generate_schedule ["Push"] 1 0 0 2)).length =
      (generate_schedule ["Push"] 1 0 0 2).length + (((5 : Int) - 2).toNat + 30)) :=
  ⟨by decide, by decide,
    extend_appends ["Push"] 1 0 5 0 (generate_schedule ["Push"] 1 0 0 2)
      { date := 1, kind := Kind.Rest, label := "Rest", done := false }
      (by decide) (by decide)⟩

/-- C6: calling extend_schedule_if_needed twice with the same untilDate is
idempotent: the second call returns its input unchanged, and the first
plan.length entries of the once-extended plan (the whole original plan,
including done flags) are byte-identical to the original plan. -/
theorem extend_idempotent (labels : List String) (h c untilD today : Int)
    (plan : List Entry) :
    extend_schedule_if_needed labels h c untilD today
        (extend_schedule_if_needed labels h c untilD today plan) =
      extend_schedule_if_needed labels h c untilD today plan ∧
    (extend_schedule_if_needed labels h c untilD today plan).take plan.length =
      plan := by
  constructor
  · obtain ⟨e, hlast, hge⟩ := extend_last_ge labels h c untilD today plan
    exact extend_eq_of_ge labels h c untilD today _ e hlast hge
  · cases hplan : plan with
    | nil => simp
    | cons a l =>
        have hne : a :: l ≠ [] := by simp
        obtain ⟨lastE, hlast⟩ := Option.isSome_iff_exists.mp
          (List.getLast?_isSome.mpr hne)
        by_cases hlt : lastE.date < untilD
        · rw [extend_eq_of_lt labels h c untilD today _ lastE hlast hlt]
          exact List.take_left _ _
        · rw [extend_eq_of_ge labels h c untilD today _ lastE hlast (by omega)]
          exact List.take_length _

/-- C1, counterexample: label rotation is not contiguous across an
extension. Take splitLabels = [Push, Pull, Legs], 5 hypertrophy days per
week, no cardio, a 60-day plan starting at day 0 (so 44 hypertrophy entries,
indices 0..43), and extend to day 60. The hypertrophy entry at
generation-order position 44 would need label splitLabels[44 mod 3] = Legs
for contiguity, but extension restarts the rotation counter at 0 and the
entry carries Push. -/
theorem extension_label_not_contiguous :
    ¬ (∀ (i : Nat) (e : Entry),
        ((extend_schedule_if_needed ["Push", "Pull", "Legs"] 5 0 60 0
            (generate_schedule ["Push", "Pull", "Legs"] 5 0 0 60)).filter
          (fun x => x.kind == Kind.Hypertrophy))[i]? = some e →
        e.label =
          ["Push", "Pull", "Legs"].getD (i % ["Push", "Pull", "Legs"].length) "") := by
  intro hcl
  have h44 := hcl 44
    { date := 60, kind := Kind.Hypertrophy, label := "Push", done := false }
    (by decide)
  exact absurd h44 (by decide)

/-- C1 (amended): the split-label rotation is contiguous within each
generated segment, whose counter starts at 0: in any generate_schedule
output the i-th hypertrophy entry (generation order) has label
splitLabels[i mod len(splitLabels)]; and when extend_schedule_if_needed
appends a segment to a non-empty plan, the appended segment obeys the same
rule with the counter restarted at 0 rather than resuming from the existing
plan. -/
theorem hyper_label_rotation (labels : List String) (h c st : Int)
    (n : Nat) (_hne : labels ≠ []) :
    (∀ (i : Nat) (e : Entry),
        ((generate_schedule labels h c st n).filter
          (fun x => x.kind == Kind.Hypertrophy))[i]? = some e →
        e.label = labels.getD (i % labels.length) "") ∧
    (∀ (untilD today : Int) (plan : List Entry) (lastE : Entry),
        plan.getLast? = some lastE → lastE.date < untilD →
        ∀ (i : Nat) (e : Entry),
          (((extend_schedule_if_needed labels h c untilD today plan).drop
              plan.length).filter
            (fun x => x.kind == Kind.Hypertrophy))[i]? = some e →
          e.label = labels.getD (i % labels.length) "") := by
  constructor
  · intro i e he
    simpa using genAux_hyperLabel labels (week_pattern h c) st n 0 0 i e he
  · intro untilD today plan lastE hlast hlt i e he
    rw [extend_eq_of_lt labels h c untilD today plan lastE hlast hlt,
      List.drop_left] at he
    simpa using genAux_hyperLabel labels (week_pattern h c) (lastE.date + 1)
      ((untilD - (lastE.date + 1)).toNat + 30) 0 0 i e he

/-- Witness for the amended C1 at a concrete input. -/
theorem hyper_label_rotation_witness :
    (["Push", "Pull", "Legs"] ≠ ([] : List String)) ∧
    ((∀ (i : Nat) (e : Entry),
        ((generate_schedule ["Push", "Pull", "Legs"] 5 0 0 60).filter
          (fun x => x.kind == Kind.Hypertrophy))[i]? = some e →
        e.label = ["Push", "Pull", "Legs"].getD
          (i % ["Push", "Pull", "Legs"].length) "") ∧
    (∀ (untilD today : Int) (plan : List Entry) (lastE : Entry),
        plan.getLast? = some lastE → lastE.date < untilD →
        ∀ (i : Nat) (e : Entry),
          (((extend_schedule_if_needed ["Push", "Pull", "Legs"] 5 0 untilD today
              plan).drop plan.length).filter
            (fun x => x.kind == Kind.Hypertrophy))[i]? = some e →
          e.label = ["Push", "Pull", "Legs"].getD
            (i % ["Push", "Pull", "Legs"].length) "")) :=
  ⟨by decide, hyper_label_rotation ["Push", "Pull", "Legs"] 5 0 0 60 (by decide)⟩

/-- Witness for C4 at a concrete input. -/
theorem generate_schedule_days_witness :
    (["Full Body"] ≠ ([] : List String)) ∧
    ((generate_schedule ["Full Body"] 1 1 5 3).length = 3 ∧
      ∀ (i : Nat) (e : Entry), (generate_schedule ["Full Body"] 1 1 5 3)[i]? = some e →
        e.date = (5 : Int) + i ∧ e.done = false) :=
  ⟨by decide, generate_schedule_days ["Full Body"] 1 1 5 3 (by decide)⟩

theorem foldl_next_replicate (total : Nat) :
    ∀ (n cc : Nat) (f : Bool),
      List.foldl (stepSession total) ⟨cc, f⟩ (List.replicate (n + 1) Press.next) =
        ⟨cc + n + 1, f || decide (total ≤ cc + n + 1)⟩ := by
  intro n
  induction n with
  | zero =>
      intro cc f
      simp [stepSession]
  | succ m ih =>
      intro cc f
      rw [List.replicate_succ, List.foldl_cons]
      have hstep : stepSession total ⟨cc, f⟩ Press.next =
          ⟨cc + 1, f || decide (total ≤ cc + 1)⟩ := rfl
      rw [hstep, ih]
      have harith : cc + 1 + m + 1 = cc + (m + 1) + 1 := by omega
      by_cases h1 : total ≤ cc + 1
      · have h2 : total ≤ cc + (m + 1) + 1 := by omega
        simp [h1, h2, harith]
      · simp [h1, harith]

theorem foldl_press_bound (total : Nat) :
    ∀ (ps : List Press) (s : SessionState),
      (List.foldl (stepSession total) s ps).current_card ≤
        s.current_card + ps.length ∧
      ((List.foldl (stepSession total) s ps).finished = true →
        s.finished = true ∨ total ≤ s.current_card + ps.length) := by
  intro ps
  induction ps with
  | nil =>
      intro s
      exact ⟨by simp, fun hf => Or.inl (by simpa using hf)⟩
  | cons p rest ih =>
      intro s
      rw [List.foldl_cons]
      obtain ⟨hcard, hfin⟩ := ih (stepSession total s p)
      have hstep1 : (stepSession total s p).current_card ≤ s.current_card + 1 := by
        cases p with
        | prev =>
            by_cases h0 : 0 < s.current_card <;> simp [stepSession, h0] <;> omega
        | next => simp [stepSession]
      have hstep2 : (stepSession total s p).finished = true →
          s.finished = true ∨ total ≤ s.current_card + 1 := by
        cases p with
        | prev =>
            intro hf
            left
            by_cases h0 : 0 < s.current_card <;> simp [stepSession, h0] at hf <;>
              exact hf
        | next =>
            intro hf
            simp [stepSession] at hf
            rcases hf with hl | hr
            · exact Or.inl hl
            · exact Or.inr (by omega)
      constructor
      · simp only [List.length_cons]
        omega
      · intro hf
        rcases hfin hf with h | h
        · rcases hstep2 h with h2 | h2
          · exact Or.inl h2
          · right
            simp only [List.length_cons]
            omega
        · right
          simp only [List.length_cons]
          omega

/-- C8: for a session over a plan of size total started at index 0 with
finished = false, pressing next exactly total times reaches finished = true;
no sequence of fewer than total next/previous presses does; and pressing
previous at index 0 leaves the session state unchanged. -/
theorem session_machine (total : Nat) (htotal : 1 ≤ total) :
    (runSession total (List.replicate total Press.next)).finished = true ∧
    (∀ ps : List Press, ps.length < total →
      (runSession total ps).finished = false) ∧
    stepSession total ⟨0, false⟩ Press.prev = ⟨0, false⟩ := by
  refine ⟨?_, ?_, rfl⟩
  · obtain ⟨m, rfl⟩ : ∃ m, total = m + 1 := ⟨total - 1, by omega⟩
    rw [runSession, foldl_next_replicate]
    simp
  · intro ps hlen
    cases hfin : (runSession total ps).finished
    · rfl
    · rcases (foldl_press_bound total ps ⟨0, false⟩).2 hfin with h | h
      · simp at h
      · simp at h
        omega

/-! General lemmas about the workout builder. -/

theorem insertBy_length {α : Type} (le : α → α → Bool) (x : α) :
    ∀ l : List α, (insertBy le x l).length = l.length + 1 := by
  intro l
  induction l with
  | nil => rfl
  | cons y ys ih =>
      unfold insertBy
      by_cases hle : le x y
      · rw [if_pos hle]
        simp
      · rw [if_neg hle]
        simp [ih]

theorem sortBy_length {α : Type} (le : α → α → Bool) :
    ∀ l : List α, (sortBy le l).length = l.length := by
  intro l
  induction l with
  | nil => rfl
  | cons y ys ih =>
      unfold sortBy
      rw [insertBy_length, ih]
      rfl

theorem mem_insertBy {α : Type} (le : α → α → Bool) (x y : α) :
    ∀ l : List α, y ∈ insertBy le x l → y = x ∨ y ∈ l := by
  intro l
  induction l with
  | nil => intro hy; simpa [insertBy] using hy
  | cons z zs ih =>
      intro hy
      unfold insertBy at hy
      by_cases hle : le x z
      · rw [if_pos hle] at hy
        simp at hy
        rcases hy with h | h | h
        · exact Or.inl h
        · exact Or.inr (by simp [h])
        · exact Or.inr (by simp [h])
      · rw [if_neg hle] at hy
        simp at hy
        rcases hy with h | h
        · exact Or.inr (by simp [h])
        · rcases ih h with h2 | h2
          · exact Or.inl h2
          · exact Or.inr (by simp [h2])

theorem mem_sortBy {α : Type} (le : α → α → Bool) :
    ∀ (l : List α) (y : α), y ∈ sortBy le l → y ∈ l := by
  intro l
  induction l with
  | nil => intro y hy; simpa [sortBy] using hy
  | cons z zs ih =>
      intro y hy
      unfold sortBy at hy
      rcases mem_insertBy le z y _ hy with h | h
      · simp [h]
      · exact List.mem_cons_of_mem z (ih y h)

theorem scoreRows_mem (targets : List String) (soreness : List (String × Int))
    (intensity : Intensity) (jitter : Nat → ℚ) :
    ∀ (rows : List Row) (i : Nat) (p : ℚ × Row),
      p ∈ scoreRows targets soreness intensity jitter i rows → p.2 ∈ rows := by
  intro rows
  induction rows with
  | nil => intro i p hp; simp [scoreRows] at hp
  | cons r rs ih =>
      intro i p hp
      unfold scoreRows at hp
      rcases List.mem_cons.mp hp with h | h
      · rw [h]
        simp
      · exact List.mem_cons_of_mem r (ih (i + 1) p h)

theorem scoreRows_length (targets : List String) (soreness : List (String × Int))
    (intensity : Intensity) (jitter : Nat → ℚ) :
    ∀ (rows : List Row) (i : Nat),
      (scoreRows targets soreness intensity jitter i rows).length = rows.length := by
  intro rows
  induction rows with
  | nil => intro i; rfl
  | cons r rs ih =>
      intro i
      unfold scoreRows
      simp [ih]

theorem isVerySore_false_lt (s : List (String × Int)) (m : String)
    (hs : isVerySore s m = false) : sorenessGet s m < 8 := by
  induction s with
  | nil => simp [sorenessGet]
  | cons p rest ih =>
      obtain ⟨k, v⟩ := p
      simp [isVerySore] at hs
      obtain ⟨h1, h2⟩ := hs
      unfold sorenessGet
      by_cases hk : k = m
      · rw [if_pos hk]
        have := h1 (by simp [hk])
        omega
      · rw [if_neg hk]
        refine ih ?_
        simp [isVerySore]
        exact h2

theorem build_workout_plan_length (df : List Row) (title : String)
    (minutes : Nat) (wishes : String) (soreness : List (String × Int))
    (intensity : Intensity) (jitter : Nat → ℚ) :
    (build_workout_plan df title minutes wishes soreness intensity jitter).length =
      min (compute_num_exercises minutes intensity)
        ((df.filter (fun r => !isVerySore soreness r.muscleGroup)).length) := by
  simp only [build_workout_plan]
  by_cases hemp :
      (df.filter (fun r => !isVerySore soreness r.muscleGroup)).isEmpty = true
  · rw [if_pos hemp]
    rw [List.isEmpty_iff] at hemp
    simp [hemp]
  · rw [if_neg hemp]
    simp only [sortDesc]
    rw [List.length_map, List.length_take, sortBy_length, scoreRows_length]
    omega

/-- C2: for every input catalog, title, minutes, wishes, soreness map,
intensity and jitter draws, the workout plan returned by build_workout_plan
contains no exercise whose muscle group has a soreness value of 8 or more
(such records are excluded by the hard filter before scoring). -/
theorem no_very_sore_in_plan (df : List Row) (title : String) (minutes : Nat)
    (wishes : String) (soreness : List (String × Int)) (intensity : Intensity)
    (jitter : Nat → ℚ) (e : PlanExercise)
    (he : e ∈ build_workout_plan df title minutes wishes soreness intensity jitter) :
    sorenessGet soreness e.muscle < 8 := by
  simp only [build_workout_plan] at he
  by_cases hemp :
      (df.filter (fun r => !isVerySore soreness r.muscleGroup)).isEmpty = true
  · rw [if_pos hemp] at he
    simp at he
  · rw [if_neg hemp] at he
    obtain ⟨p, hp, hpe⟩ := List.mem_map.mp he
    have hp2 : p ∈ sortBy (fun x y : ℚ × Row => y.1 ≤ x.1)
        (scoreRows (infer_muscles_from_title title (uniqueMuscles df)) soreness
          intensity jitter 0
          (df.filter (fun r => !isVerySore soreness r.muscleGroup))) := by
      simp only [sortDesc] at hp
      exact List.mem_of_mem_take hp
    have hp3 := mem_sortBy _ _ p hp2
    have hp4 := scoreRows_mem _ _ _ _ _ 0 p hp3
    have hp5 := (List.mem_filter.mp hp4).2
    have hm : e.muscle = p.2.muscleGroup := by rw [← hpe]
    rw [hm]
    exact isVerySore_false_lt soreness p.2.muscleGroup (by simpa using hp5)

/-- Witness for C2 at a concrete input. -/
theorem no_very_sore_in_plan_witness :
    (PlanExercise.mk "Bench" "Chest" "Barbell" 3 "8–12" "60–90 sec" "" ∈
      build_workout_plan [Row.mk "Bench" "Chest" "Barbell" ""] "Push Day" 45 ""
        [("Back", 9)] Intensity.Moderate (fun _ => 0)) ∧
    sorenessGet [("Back", 9)] "Chest" < 8 :=
  ⟨by decide,
    no_very_sore_in_plan [Row.mk "Bench" "Chest" "Barbell" ""] "Push Day" 45 ""
      [("Back", 9)] Intensity.Moderate (fun _ => 0)
      (PlanExercise.mk "Bench" "Chest" "Barbell" 3 "8–12" "60–90 sec" "")
      (by decide)⟩

/-- C9: if the catalog is empty after removing rows whose muscle group has
soreness at least 8 (including an empty input catalog),
build_workout_plan returns the empty plan, for every title, minutes, wishes,
intensity and jitter draws. -/
theorem empty_catalog_empty_plan (df : List Row) (title : String)
    (minutes : Nat) (wishes : String) (soreness : List (String × Int))
    (intensity : Intensity) (jitter : Nat → ℚ)
    (hemp : df.filter (fun r => !isVerySore soreness r.muscleGroup) = []) :
    build_workout_plan df title minutes wishes soreness intensity jitter = [] := by
  simp only [build_workout_plan, hemp]
  rfl

/-- Witness for C9 at a concrete input: a catalog whose only muscle group is
maximally sore. -/
theorem empty_catalog_empty_plan_witness :
    (([Row.mk "Bench" "Chest" "Barbell" ""].filter
      (fun r => !isVerySore [("Chest", 9)] r.muscleGroup)) = []) ∧
    build_workout_plan [Row.mk "Bench" "Chest" "Barbell" ""] "Push Day" 45 ""
      [("Chest", 9)] Intensity.Moderate (fun _ => 0) = [] :=
  ⟨by decide,
    empty_catalog_empty_plan [Row.mk "Bench" "Chest" "Barbell" ""] "Push Day" 45 ""
      [("Chest", 9)] Intensity.Moderate (fun _ => 0) (by decide)⟩

/-- C10: the wishes argument has no influence on build_workout_plan: two
runs that differ only in the wishes value, with the same jitter draws,
produce identical workout plans. -/
theorem wishes_have_no_influence (df : List Row) (title : String)
    (minutes : Nat) (w1 w2 : String) (soreness : List (String × Int))
    (intensity : Intensity) (jitter : Nat → ℚ) :
    build_workout_plan df title minutes w1 soreness intensity jitter =
      build_workout_plan df title minutes w2 soreness intensity jitter := rfl

/-- The exercise-count formula exactly as the specification words it
(refinement comparison definition, written from the spec, not from the
source): base = clamp(round(minutes/8), 3, 10); Light:
clamp(round(base*0.8), 3, 12); Moderate: base; Max: clamp(base*1.2, 3, 12)
with the product truncated to an integer. round(base*0.8) rounds the exact
rational 4*base/5, whose fractional part is never one half, so every
standard rounding rule agrees with (4*base + 2) / 5. -/
def computeNumSpec (minutes : Nat) (intensity : Intensity) : Nat :=
  let base := max 3 (min 10 (pyRoundDiv8 minutes))
  match intensity with
  | Intensity.Light => max 3 (min 12 ((4 * base + 2) / 5))
  | Intensity.Moderate => base
  | Intensity.Max => max 3 (min 12 (6 * base / 5))

/-- The exercise-count formula as amended: identical to the specification
formula except that Light truncates base*0.8 toward zero (Python
`int(base * 0.8)`) instead of rounding it. -/
def computeNumAmended (minutes : Nat) (intensity : Intensity) : Nat :=
  let base := max 3 (min 10 (pyRoundDiv8 minutes))
  match intensity with
  | Intensity.Light => max 3 (min 12 (4 * base / 5))
  | Intensity.Moderate => base
  | Intensity.Max => max 3 (min 12 (6 * base / 5))

/-- C7, counterexample: at minutes = 50 (a reachable slider value) with
Light intensity, base = round(50/8) = 6 and the code computes
max(3, int(6 * 0.8)) = max(3, 4) = 4, while the specification formula
clamp(round(base*0.8), 3, 12) = clamp(5, 3, 12) gives 5. -/
theorem exercise_count_light_counterexample :
    compute_num_exercises 50 Intensity.Light = 4 ∧
    computeNumSpec 50 Intensity.Light = 5 ∧
    compute_num_exercises 50 Intensity.Light ≠ computeNumSpec 50 Intensity.Light := by
  refine ⟨by decide, by decide, by decide⟩

/-- C7 (amended): the number of exercises is base = clamp(round(minutes/8),
3, 10); Light gives clamp(trunc(base*0.8), 3, 12) (truncation, not
rounding), Moderate gives base, Max gives clamp(trunc(base*1.2), 3, 12);
the final plan length is the minimum of that count and the number of
catalog rows remaining after the soreness filter; in particular minutes=15
with Light yields 3 and minutes=120 with Max yields min(12, totalCatalog). -/
theorem exercise_count_formula :
    (∀ (minutes : Nat) (intensity : Intensity),
      compute_num_exercises minutes intensity =
        computeNumAmended minutes intensity) ∧
    (∀ (df : List Row) (title : String) (minutes : Nat) (wishes : String)
        (soreness : List (String × Int)) (intensity : Intensity)
        (jitter : Nat → ℚ),
      (build_workout_plan df title minutes wishes soreness intensity
          jitter).length =
        min (compute_num_exercises minutes intensity)
          ((df.filter (fun r => !isVerySore soreness r.muscleGroup)).length)) ∧
    compute_num_exercises 15 Intensity.Light = 3 ∧
    (∀ (df : List Row) (title : String) (wishes : String) (jitter : Nat → ℚ),
      (build_workout_plan df title 120 wishes [] Intensity.Max jitter).length =
        min 12 df.length) := by
  refine ⟨?_, ?_, by decide, ?_⟩
  · intro minutes intensity
    cases intensity <;> simp only [compute_num_exercises, computeNumAmended] <;>
      omega
  · intro df title minutes wishes soreness intensity jitter
    exact build_workout_plan_length df title minutes wishes soreness intensity
      jitter
  · intro df title wishes jitter
    rw [build_workout_plan_length]
    have hfil : df.filter (fun r => !isVerySore [] r.muscleGroup) = df := by
      simp [isVerySore]
    rw [hfil]
    have h12 : compute_num_exercises 120 Intensity.Max = 12 := by decide
    rw [h12]

/-- Witness for C8 at a concrete input. -/
theorem session_machine_witness :
    (1 ≤ 2) ∧
    ((runSession 2 (List.replicate 2 Press.next)).finished = true ∧
    (∀ ps : List Press, ps.length < 2 →
      (runSession 2 ps).finished = false) ∧
    stepSession 2 ⟨0, false⟩ Press.prev = ⟨0, false⟩) :=
  ⟨by decide, session_machine 2 (by decide)⟩

end Workout
